import Mathlib

/-!
Shallow embedding of the `intcode-vm` crate (`src/intcode-vm/src/memory.rs`
and `src/intcode-vm/src/vm.rs`).

The Rust code is generic over a cell type `T : Integer + Clone + ToPrimitive`
with fallible narrowing conversions `to_u16` and `to_usize`; we model cells as
`Int` (which also covers the `num::BigInt` instantiation) and the narrowing
conversions explicitly, with `to_usize` targeting a 64-bit address width.

Rust panics (the `expect("Out of bound memory access")` calls in
`Memory::get` / `Memory::set`) are modelled as `Option` failure / a
distinguished `panicked` outcome, kept separate from the `VMError` values the
code returns through `Result`.

The `run` loop of `vm.rs` is embedded as a fuel-indexed interpreter
`IntcodeVM.runFuel` whose loop body `IntcodeVM.step` is a direct transcription
of the Rust loop body, together with a proof (`run_terminates`) that the fuel
`memory length - instruction pointer + 1` always suffices, so the total
function `IntcodeVM.run` computes exactly what the Rust loop does.
-/

/-- `Memory<T>` from `memory.rs`: a wrapper around a vector of cells. -/
structure Memory where
  mem : List Int
deriving DecidableEq

/-- `Memory::get` (`memory.rs` lines 62-65): returns the cell at `address`;
panics (`none`) when the address is not within the stored length. -/
def Memory.get (m : Memory) (address : Nat) : Option Int :=
  m.mem.get? address

/-- `Memory::set` (`memory.rs` lines 92-98): replaces the value at `address`;
panics (`none`) when the address is not within the stored length. The backing
vector is never grown or shrunk. -/
def Memory.set (m : Memory) (address : Nat) (value : Int) : Option Memory :=
  if address < m.mem.length then some ⟨m.mem.set address value⟩ else none

/-- Recursion underlying `Memory::memory_starts_with`: walk the prefix,
matching each of its elements against the memory cell at the same position;
a missing memory cell yields `false`. -/
def startsWithAux : List Int → List Int → Bool
  | _, [] => true
  | [], _ :: _ => false
  | x :: xs, y :: ys => x == y && startsWithAux xs ys

/-- `Memory::memory_starts_with` (`memory.rs` lines 134-146). -/
def Memory.memory_starts_with (m : Memory) (p : List Int) : Bool :=
  startsWithAux m.mem p

/-- `to_u16` of `num::ToPrimitive`: succeeds exactly on values representable
as an unsigned 16-bit integer. -/
def to_u16 (x : Int) : Option Nat :=
  if 0 ≤ x ∧ x ≤ 65535 then some x.toNat else none

/-- `to_usize` of `num::ToPrimitive` on a 64-bit target: succeeds exactly on
values representable as an unsigned 64-bit integer. -/
def to_usize (x : Int) : Option Nat :=
  if 0 ≤ x ∧ x ≤ 18446744073709551615 then some x.toNat else none

/-- `VMError<T>` from `error.rs`. -/
inductive VMError where
  | UnknownInstruction : Nat → VMError
  | CannotCastToU16 : Int → VMError
  | CannotCastToUsize : Int → VMError
  | InvalidArgMode : Nat → Nat → Nat → VMError
  | ArgModeCannotBeImmediate : Nat → Nat → VMError
deriving DecidableEq

/-- Transient decoded instruction (`vm.rs` lines 182-187): the three fields of
`Add` / `Mul` are the raw cell values at offsets 1, 2, 3 from the instruction
pointer. -/
inductive Instruction where
  | Add : Int → Int → Int → Instruction
  | Mul : Int → Int → Int → Instruction
  | Halt : Instruction
deriving DecidableEq

/-- Outcome of a fallible VM computation: a Rust panic, a `VMError` returned
through `Result`, or a value. -/
inductive VMRes (α : Type) where
  | panicked : VMRes α
  | err : VMError → VMRes α
  | ok : α → VMRes α
deriving DecidableEq

/-- `IntcodeVM<T>` from `vm.rs` lines 10-17. -/
structure IntcodeVM where
  memory : Memory
  instruction_ptr : Nat
deriving DecidableEq

/-- `IntcodeVM::get_at_instr_ptr` (`vm.rs` lines 125-128). -/
def IntcodeVM.get_at_instr_ptr (vm : IntcodeVM) (offset : Nat) : Option Int :=
  vm.memory.get (vm.instruction_ptr + offset)

/-- `IntcodeVM::get_3_after_intr_ptr` (`vm.rs` lines 130-137): the three cells
after the instruction pointer, panicking when any is out of bounds. -/
def IntcodeVM.get_3_after_intr_ptr (vm : IntcodeVM) : Option (Int × Int × Int) :=
  match vm.get_at_instr_ptr 1, vm.get_at_instr_ptr 2, vm.get_at_instr_ptr 3 with
  | some a, some b, some c => some (a, b, c)
  | _, _, _ => none

/-- `Instruction::from_current_instr_ptr` (`vm.rs` lines 193-204): read the
cell at the instruction pointer, narrow it to `u16` (failing with
`CannotCastToU16`), and match the whole value against `1`, `2`, `99`; any
other value is `UnknownInstruction`. -/
def Instruction.from_current_instr_ptr (vm : IntcodeVM) : VMRes Instruction :=
  match vm.get_at_instr_ptr 0 with
  | none => .panicked
  | some instr =>
    match to_u16 instr with
    | none => .err (.CannotCastToU16 instr)
    | some 1 =>
      match vm.get_3_after_intr_ptr with
      | none => .panicked
      | some (a, b, c) => .ok (.Add a b c)
    | some 2 =>
      match vm.get_3_after_intr_ptr with
      | none => .panicked
      | some (a, b, c) => .ok (.Mul a b c)
    | some 99 => .ok .Halt
    | some other => .err (.UnknownInstruction other)

/-- Result of one `run` invocation: clean halt (`Ok(())` in Rust), an error
returned through `Result`, or a Rust panic from a memory access. -/
inductive RunResult where
  | halted : RunResult
  | vmError : VMError → RunResult
  | panicked : RunResult
deriving DecidableEq

/-- The `Add` / `Mul` arm of the `run` loop body (`vm.rs` lines 63-94),
parameterized by the binary operation: cast `arg1` to an address (else
`CannotCastToUsize(arg1)`), read it (else panic), likewise `arg2`, cast
`dest` (else `CannotCastToUsize(dest)`), write the result (else panic), and
advance the instruction pointer by the instruction width 4. -/
def IntcodeVM.execBinOp (vm : IntcodeVM) (arg1 arg2 dest : Int)
    (f : Int → Int → Int) : Sum (RunResult × IntcodeVM) IntcodeVM :=
  match to_usize arg1 with
  | none => .inl (.vmError (.CannotCastToUsize arg1), vm)
  | some a1 =>
    match vm.memory.get a1 with
    | none => .inl (.panicked, vm)
    | some arg1_val =>
      match to_usize arg2 with
      | none => .inl (.vmError (.CannotCastToUsize arg2), vm)
      | some a2 =>
        match vm.memory.get a2 with
        | none => .inl (.panicked, vm)
        | some arg2_val =>
          match to_usize dest with
          | none => .inl (.vmError (.CannotCastToUsize dest), vm)
          | some destination_addr =>
            match vm.memory.set destination_addr (f arg1_val arg2_val) with
            | none => .inl (.panicked, vm)
            | some m => .inr ⟨m, vm.instruction_ptr + 4⟩

/-- One iteration of the `run` loop (`vm.rs` lines 59-99): fetch-decode, then
either terminate (`inl`) with a result and the state at that point, or
continue (`inr`) with the successor state. -/
def IntcodeVM.step (vm : IntcodeVM) : Sum (RunResult × IntcodeVM) IntcodeVM :=
  match Instruction.from_current_instr_ptr vm with
  | .panicked => .inl (.panicked, vm)
  | .err e => .inl (.vmError e, vm)
  | .ok .Halt => .inl (.halted, vm)
  | .ok (.Add a b d) => vm.execBinOp a b d (fun x y => x + y)
  | .ok (.Mul a b d) => vm.execBinOp a b d (fun x y => x * y)

/-- Fuel-indexed unfolding of the `run` loop. -/
def IntcodeVM.runFuel : Nat → IntcodeVM → Option (RunResult × IntcodeVM)
  | 0, _ => none
  | fuel + 1, vm =>
    match vm.step with
    | .inl r => some r
    | .inr vm' => IntcodeVM.runFuel fuel vm'

/-- `IntcodeVM::run` (`vm.rs` lines 57-102): the loop, run with a fuel that is
proved sufficient below (`runFuel_isSome_of_lt`), so this total function and
the Rust loop agree. -/
def IntcodeVM.run (vm : IntcodeVM) : Option (RunResult × IntcodeVM) :=
  IntcodeVM.runFuel (vm.memory.mem.length - vm.instruction_ptr + 1) vm

example : IntcodeVM.run ⟨⟨[1, 0, 0, 0, 99]⟩, 0⟩
    = some (.halted, ⟨⟨[2, 0, 0, 0, 99]⟩, 4⟩) := by decide

example : IntcodeVM.run ⟨⟨[2, 4, 4, 5, 99, 0]⟩, 0⟩
    = some (.halted, ⟨⟨[2, 4, 4, 5, 99, 9801]⟩, 4⟩) := by decide

/-! ## Helper lemmas -/

lemma Memory.set_some {m m' : Memory} {a : Nat} {v : Int}
    (h : m.set a v = some m') :
    m' = ⟨m.mem.set a v⟩ ∧ a < m.mem.length := by
  unfold Memory.set at h
  split at h
  · exact ⟨(Option.some.injEq _ _ ▸ h).symm, by assumption⟩
  · exact absurd h (by simp)

lemma fetch_ok_ip_lt {vm : IntcodeVM} {i : Instruction}
    (h : Instruction.from_current_instr_ptr vm = .ok i) :
    vm.instruction_ptr < vm.memory.mem.length := by
  unfold Instruction.from_current_instr_ptr at h
  cases hg : vm.get_at_instr_ptr 0 with
  | none => rw [hg] at h; exact absurd h (by simp)
  | some instr =>
    have hlt : vm.instruction_ptr + 0 < vm.memory.mem.length := by
      have := hg
      unfold IntcodeVM.get_at_instr_ptr Memory.get at this
      exact (List.get?_eq_some.mp this).1
    simpa using hlt

lemma execBinOp_inr {vm vm' : IntcodeVM} {a1 a2 d : Int} {f : Int → Int → Int}
    (h : vm.execBinOp a1 a2 d f = .inr vm') :
    vm'.memory.mem.length = vm.memory.mem.length ∧
      vm'.instruction_ptr = vm.instruction_ptr + 4 := by
  unfold IntcodeVM.execBinOp at h
  repeat' split at h
  all_goals cases h
  rename_i hset
  obtain ⟨hm, hlt⟩ := Memory.set_some hset
  subst hm
  exact ⟨by simp, rfl⟩

lemma step_inr {vm vm' : IntcodeVM} (h : vm.step = .inr vm') :
    vm'.memory.mem.length = vm.memory.mem.length ∧
      vm'.instruction_ptr = vm.instruction_ptr + 4 ∧
      vm.instruction_ptr < vm.memory.mem.length := by
  unfold IntcodeVM.step at h
  split at h
  · cases h
  · cases h
  · cases h
  · rename_i hfetch
    obtain ⟨h1, h2⟩ := execBinOp_inr h
    exact ⟨h1, h2, fetch_ok_ip_lt hfetch⟩
  · rename_i hfetch
    obtain ⟨h1, h2⟩ := execBinOp_inr h
    exact ⟨h1, h2, fetch_ok_ip_lt hfetch⟩

lemma runFuel_isSome_of_lt :
    ∀ (fuel : Nat) (vm : IntcodeVM),
      vm.memory.mem.length - vm.instruction_ptr < fuel →
      (IntcodeVM.runFuel fuel vm).isSome := by
  intro fuel
  induction fuel with
  | zero => intro vm h; omega
  | succ n ih =>
    intro vm h
    unfold IntcodeVM.runFuel
    cases hs : vm.step with
    | inl r => simp
    | inr vm' =>
      simp only
      obtain ⟨hlen, hip, hlt⟩ := step_inr hs
      exact ih vm' (by omega)

lemma run_of_step_inl {vm : IntcodeVM} {r : RunResult × IntcodeVM}
    (h : vm.step = .inl r) : vm.run = some r := by
  unfold IntcodeVM.run IntcodeVM.runFuel
  rw [h]

lemma execBinOp_inl_not_halted {vm t : IntcodeVM} {a1 a2 d : Int}
    {f : Int → Int → Int} :
    vm.execBinOp a1 a2 d f ≠ .inl (.halted, t) := by
  intro h
  unfold IntcodeVM.execBinOp at h
  repeat' split at h
  all_goals cases h

lemma step_inl_halted {vm t : IntcodeVM} (h : vm.step = .inl (.halted, t)) :
    t = vm ∧ Instruction.from_current_instr_ptr vm = .ok .Halt := by
  unfold IntcodeVM.step at h
  split at h
  · cases h
  · cases h
  · rename_i hfetch
    cases h
    exact ⟨rfl, hfetch⟩
  · exact absurd h execBinOp_inl_not_halted
  · exact absurd h execBinOp_inl_not_halted

lemma runFuel_halted_fetch :
    ∀ (fuel : Nat) (vm t : IntcodeVM),
      IntcodeVM.runFuel fuel vm = some (.halted, t) →
      Instruction.from_current_instr_ptr t = .ok .Halt := by
  intro fuel
  induction fuel with
  | zero => intro vm t h; exact absurd h (by simp [IntcodeVM.runFuel])
  | succ n ih =>
    intro vm t h
    unfold IntcodeVM.runFuel at h
    cases hs : vm.step with
    | inl r =>
      rw [hs] at h
      simp only [Option.some.injEq] at h
      subst h
      exact (step_inl_halted hs).1 ▸ (step_inl_halted hs).2
    | inr vm' =>
      rw [hs] at h
      exact ih vm' t h

lemma execBinOp_cast1 {vm : IntcodeVM} {a1 : Int} (a2 d : Int)
    (f : Int → Int → Int) (h1 : to_usize a1 = none) :
    vm.execBinOp a1 a2 d f = .inl (.vmError (.CannotCastToUsize a1), vm) := by
  unfold IntcodeVM.execBinOp
  rw [h1]

lemma execBinOp_cast2 {vm : IntcodeVM} {a1 a2 : Int} (d : Int)
    (f : Int → Int → Int) {n1 : Nat} {v1 : Int}
    (h1 : to_usize a1 = some n1) (hv1 : vm.memory.get n1 = some v1)
    (h2 : to_usize a2 = none) :
    vm.execBinOp a1 a2 d f = .inl (.vmError (.CannotCastToUsize a2), vm) := by
  simp only [IntcodeVM.execBinOp, h1, hv1, h2]

lemma execBinOp_cast3 {vm : IntcodeVM} {a1 a2 d : Int}
    (f : Int → Int → Int) {n1 n2 : Nat} {v1 v2 : Int}
    (h1 : to_usize a1 = some n1) (hv1 : vm.memory.get n1 = some v1)
    (h2 : to_usize a2 = some n2) (hv2 : vm.memory.get n2 = some v2)
    (h3 : to_usize d = none) :
    vm.execBinOp a1 a2 d f = .inl (.vmError (.CannotCastToUsize d), vm) := by
  simp only [IntcodeVM.execBinOp, h1, hv1, h2, hv2, h3]

lemma step_fetch_add {vm : IntcodeVM} {a b d : Int}
    (h : Instruction.from_current_instr_ptr vm = .ok (.Add a b d)) :
    vm.step = vm.execBinOp a b d (fun x y => x + y) := by
  unfold IntcodeVM.step
  rw [h]

lemma step_fetch_mul {vm : IntcodeVM} {a b d : Int}
    (h : Instruction.from_current_instr_ptr vm = .ok (.Mul a b d)) :
    vm.step = vm.execBinOp a b d (fun x y => x * y) := by
  unfold IntcodeVM.step
  rw [h]

lemma execBinOp_inl_state {vm t : IntcodeVM} {a1 a2 d : Int}
    {f : Int → Int → Int} {r : RunResult}
    (h : vm.execBinOp a1 a2 d f = .inl (r, t)) : t = vm := by
  unfold IntcodeVM.execBinOp at h
  repeat' split at h
  all_goals cases h
  all_goals rfl

lemma step_inl_state {vm t : IntcodeVM} {r : RunResult}
    (h : vm.step = .inl (r, t)) : t = vm := by
  unfold IntcodeVM.step at h
  split at h
  · cases h; rfl
  · cases h; rfl
  · cases h; rfl
  · exact execBinOp_inl_state h
  · exact execBinOp_inl_state h

lemma runFuel_preserves_length :
    ∀ (fuel : Nat) (vm : IntcodeVM) (r : RunResult) (t : IntcodeVM),
      IntcodeVM.runFuel fuel vm = some (r, t) →
      t.memory.mem.length = vm.memory.mem.length := by
  intro fuel
  induction fuel with
  | zero => intro vm r t h; exact absurd h (by simp [IntcodeVM.runFuel])
  | succ n ih =>
    intro vm r t h
    unfold IntcodeVM.runFuel at h
    cases hs : vm.step with
    | inl p =>
      rw [hs] at h
      simp only [Option.some.injEq] at h
      subst h
      rw [step_inl_state hs]
    | inr vm' =>
      rw [hs] at h
      rw [ih vm' r t h, (step_inr hs).1]

lemma startsWithAux_iff :
    ∀ (ys xs : List Int),
      startsWithAux xs ys = true ↔
        ys.length ≤ xs.length ∧ ∀ i : Nat, i < ys.length → xs.get? i = ys.get? i := by
  intro ys
  induction ys with
  | nil => intro xs; simp [startsWithAux]
  | cons y ys ih =>
    intro xs
    cases xs with
    | nil => simp [startsWithAux]
    | cons x xs =>
      simp only [startsWithAux, Bool.and_eq_true, beq_iff_eq, ih,
        List.length_cons]
      constructor
      · rintro ⟨rfl, hlen, h⟩
        refine ⟨by omega, ?_⟩
        intro i hi
        cases i with
        | zero => rfl
        | succ j => simpa using h j (by omega)
      · rintro ⟨hlen, h⟩
        have h0 := h 0 (by omega)
        simp only [List.get?] at h0
        refine ⟨by simpa using h0, by omega, ?_⟩
        intro i hi
        simpa using h (i + 1) (by omega)

/-! ## Claim theorems -/

/-- C1: the spec claims the program `[3,0,4,0,99]` first returns
`WaitingForInput`, then (after `set_next_input(12345)`) `Output(12345)`, then
`Halted`, with final memory starting `[12345,0,4,0,99]`.  The `vm.rs` under
verification has no input/output opcodes, no `VMResult` and no
`set_next_input` (although the crate's own test `test_io` in `lib.rs` asserts
exactly the claimed behaviour): its very first `run` call fetches opcode `3`
and fails with `UnknownInstruction(3)`, leaving memory untouched.  This
theorem evaluates the code at the failing input. -/
theorem run_io_program_unknown_instruction :
    IntcodeVM.run ⟨⟨[3, 0, 4, 0, 99]⟩, 0⟩
      = some (.vmError (.UnknownInstruction 3), ⟨⟨[3, 0, 4, 0, 99]⟩, 0⟩) := by
  decide

/-- C2 counterexample: `Memory::set` does not succeed beyond the current
length — at address 10 of a 5-cell memory it panics (`none`) instead of
growing and zero-filling the store (this is the `should_panic` doctest input
of `memory.rs`). -/
theorem set_beyond_length_fails :
    Memory.set ⟨[1, 0, 0, 3, 99]⟩ 10 2 = none := by decide

/-- C2 amended: `Memory::set` stores the value at the address only when the
address is strictly within the current length, replacing the cell in place
(the length never changes and all other cells are preserved); for an address
at or beyond the current length it panics instead of growing the backing
store. -/
theorem memory_set_spec (m : Memory) (a b : Nat) (v : Int) :
    (a < m.mem.length →
      m.set a v = some ⟨m.mem.set a v⟩ ∧
      (m.mem.set a v).length = m.mem.length ∧
      (m.mem.set a v).get? a = some v ∧
      (b ≠ a → (m.mem.set a v).get? b = m.mem.get? b)) ∧
    (m.mem.length ≤ a → m.set a v = none) := by
  constructor
  · intro h
    refine ⟨?_, by simp, List.get?_set_eq_of_lt v h,
      fun hb => List.get?_set_ne v m.mem (Ne.symm hb)⟩
    unfold Memory.set
    rw [if_pos h]
  · intro h
    unfold Memory.set
    rw [if_neg (by omega)]

/-- C2 witness: the amended `Memory::set` specification at the concrete
memory `[5,6,7]`, address 1, value 9, other address 0. -/
theorem memory_set_spec_witness :
    1 < ([5, 6, 7] : List Int).length ∧
      Memory.set ⟨[5, 6, 7]⟩ 1 9 = some ⟨[5, 9, 7]⟩ ∧
      (([5, 6, 7] : List Int).set 1 9).get? 1 = some 9 ∧
      (([5, 6, 7] : List Int).set 1 9).get? 0 = ([5, 6, 7] : List Int).get? 0 :=
  ⟨by decide,
   ((memory_set_spec ⟨[5, 6, 7]⟩ 1 0 9).1 (by decide)).1,
   ((memory_set_spec ⟨[5, 6, 7]⟩ 1 0 9).1 (by decide)).2.2.1,
   ((memory_set_spec ⟨[5, 6, 7]⟩ 1 0 9).1 (by decide)).2.2.2 (by decide)⟩

/-- C3 counterexample: `Memory::get` at an address at or beyond the stored
length does not return the zero-initialized value — it panics (`none`); this
is the `should_panic` doctest input of `memory.rs`. -/
theorem get_beyond_length_not_zero :
    Memory.get ⟨[1, 0, 0, 3, 99]⟩ 10 = none ∧
      ¬ Memory.get ⟨[1, 0, 0, 3, 99]⟩ 10 = some 0 := by decide

/-- C3 amended: `Memory::get` is a pure read (it never mutates the store);
for an address strictly within the stored length it returns the stored cell,
and for an address at or beyond the stored length it panics instead of
returning zero. -/
theorem memory_get_spec (m : Memory) (a : Nat) :
    (∀ h : a < m.mem.length, m.get a = some (m.mem.get ⟨a, h⟩)) ∧
    (m.mem.length ≤ a → m.get a = none) :=
  ⟨fun h => List.get?_eq_get h, fun h => List.get?_eq_none.mpr h⟩

/-- C3 witness: the amended `Memory::get` specification at the concrete
memory `[1,0,0,3,99]`, in-bounds address 3 and out-of-bounds address 10. -/
theorem memory_get_spec_witness :
    Memory.get ⟨[1, 0, 0, 3, 99]⟩ 3 = some 3 ∧
      Memory.get ⟨[1, 0, 0, 3, 99]⟩ 10 = none :=
  ⟨(memory_get_spec ⟨[1, 0, 0, 3, 99]⟩ 3).1 (by decide),
   (memory_get_spec ⟨[1, 0, 0, 3, 99]⟩ 10).2 (by decide)⟩

/-- C4: the spec claims each fetch splits the instruction cell into a
low-two-decimal-digit opcode plus mode digits, so `[1101,100,-1,4,0]` halts
with memory `[1101,100,-1,4,99]`.  `Instruction::from_current_instr_ptr` in
the `vm.rs` under verification performs no digit splitting — it matches the
whole 16-bit value against `1`, `2`, `99` — so the fetch of `1101` fails with
`UnknownInstruction(1101)` (although the crate's own test `test_negative_add`
in `lib.rs` asserts the claimed behaviour).  This theorem evaluates the code
at the failing input. -/
theorem run_negative_immediate_unknown_instruction :
    IntcodeVM.run ⟨⟨[1101, 100, -1, 4, 0]⟩, 0⟩
      = some (.vmError (.UnknownInstruction 1101), ⟨⟨[1101, 100, -1, 4, 0]⟩, 0⟩) := by
  decide

/-- C5: running `[1,1,1,4,99,5,6,0,99]` to completion halts with final memory
`[30,1,1,4,2,5,6,0,99]`: the add at position 0 overwrites cell 4 (the `99`
that would otherwise halt) with `2`, and because instructions are decoded
fresh from memory at every fetch, the multiply now found at position 4
executes and writes `30` to cell 0 before the halt at position 8. -/
theorem run_add_mul_dynamic_destination :
    IntcodeVM.run ⟨⟨[1, 1, 1, 4, 99, 5, 6, 0, 99]⟩, 0⟩
      = some (.halted, ⟨⟨[30, 1, 1, 4, 2, 5, 6, 0, 99]⟩, 8⟩) := by
  decide

/-- C6: halt is idempotent.  When a `run` call returns the halt result
(Rust `Ok(())`) with final state `t`, the instruction pointer of `t` still
points at the halt opcode, so the next `run` call returns the halt result
again with exactly the same state — no error and no further memory mutation.
Iterating this theorem covers every subsequent `run` call. -/
theorem run_halt_idempotent (vm t : IntcodeVM)
    (h : vm.run = some (.halted, t)) :
    t.run = some (.halted, t) := by
  have hfetch := runFuel_halted_fetch _ vm t h
  have hstep : t.step = .inl (.halted, t) := by
    unfold IntcodeVM.step
    rw [hfetch]
  exact run_of_step_inl hstep

/-- C6 witness: the halt idempotence theorem applied to the one-instruction
program `[99]`, whose first `run` halts immediately. -/
theorem run_halt_idempotent_witness :
    IntcodeVM.run ⟨⟨[99]⟩, 0⟩ = some (.halted, ⟨⟨[99]⟩, 0⟩) :=
  run_halt_idempotent ⟨⟨[99]⟩, 0⟩ ⟨⟨[99]⟩, 0⟩ (by decide)

/-- C7 counterexample: a cell supplying an argument address is negative
(`arg2 = -1` in the add at `[1,10,-1,0]`, so `to_usize` fails on it), yet
`run` does not fail with `CannotCastToUsize`: the earlier in-bounds check
wins — reading `arg1`'s address 10 of a 4-cell memory panics first. -/
theorem cast_error_preempted_by_panic :
    Instruction.from_current_instr_ptr ⟨⟨[1, 10, -1, 0]⟩, 0⟩ = .ok (.Add 10 (-1) 0) ∧
      to_usize (-1) = none ∧
      IntcodeVM.run ⟨⟨[1, 10, -1, 0]⟩, 0⟩
        = some (.panicked, ⟨⟨[1, 10, -1, 0]⟩, 0⟩) := by decide

/-- C7 amended: when `run` executes an add or multiply and a cell supplying an
argument or destination address cannot be narrowed to the machine address
width, `run` fails with `CannotCastToUsize` carrying that offending cell
value, provided execution reaches that cast: the loop body evaluates
`arg1` cast, `arg1` read, `arg2` cast, `arg2` read, `dest` cast in that
order, and an earlier out-of-bounds read panics instead. -/
theorem run_add_mul_cast_to_usize_error (vm : IntcodeVM) (a1 a2 d : Int)
    (hop : Instruction.from_current_instr_ptr vm = .ok (.Add a1 a2 d) ∨
      Instruction.from_current_instr_ptr vm = .ok (.Mul a1 a2 d)) :
    (to_usize a1 = none →
        vm.run = some (.vmError (.CannotCastToUsize a1), vm)) ∧
    (∀ n1 v1, to_usize a1 = some n1 → vm.memory.get n1 = some v1 →
        to_usize a2 = none →
        vm.run = some (.vmError (.CannotCastToUsize a2), vm)) ∧
    (∀ n1 v1 n2 v2, to_usize a1 = some n1 → vm.memory.get n1 = some v1 →
        to_usize a2 = some n2 → vm.memory.get n2 = some v2 →
        to_usize d = none →
        vm.run = some (.vmError (.CannotCastToUsize d), vm)) := by
  rcases hop with h | h
  · refine ⟨?_, ?_, ?_⟩
    · intro h1
      exact run_of_step_inl ((step_fetch_add h).trans (execBinOp_cast1 a2 d _ h1))
    · intro n1 v1 h1 hv1 h2
      exact run_of_step_inl ((step_fetch_add h).trans (execBinOp_cast2 d _ h1 hv1 h2))
    · intro n1 v1 n2 v2 h1 hv1 h2 hv2 h3
      exact run_of_step_inl ((step_fetch_add h).trans (execBinOp_cast3 _ h1 hv1 h2 hv2 h3))
  · refine ⟨?_, ?_, ?_⟩
    · intro h1
      exact run_of_step_inl ((step_fetch_mul h).trans (execBinOp_cast1 a2 d _ h1))
    · intro n1 v1 h1 hv1 h2
      exact run_of_step_inl ((step_fetch_mul h).trans (execBinOp_cast2 d _ h1 hv1 h2))
    · intro n1 v1 n2 v2 h1 hv1 h2 hv2 h3
      exact run_of_step_inl ((step_fetch_mul h).trans (execBinOp_cast3 _ h1 hv1 h2 hv2 h3))

/-- C7 witness: the amended theorem applied to `[1,-1,0,0]`, whose add
instruction has the negative cell `-1` as its first argument address, so
`run` fails with `CannotCastToUsize(-1)`. -/
theorem run_add_mul_cast_to_usize_error_witness :
    to_usize (-1) = none ∧
      IntcodeVM.run ⟨⟨[1, -1, 0, 0]⟩, 0⟩
        = some (.vmError (.CannotCastToUsize (-1)), ⟨⟨[1, -1, 0, 0]⟩, 0⟩) :=
  ⟨by decide,
   (run_add_mul_cast_to_usize_error ⟨⟨[1, -1, 0, 0]⟩, 0⟩ (-1) 0 0
      (Or.inl (by decide))).1 (by decide)⟩

/-- C8: `Memory::memory_starts_with` returns `true` exactly when cell-by-cell
equality holds between the prefix and the memory's contents over the prefix's
length; since an out-of-range memory cell has no value, a prefix longer than
the memory always yields `false` (the length conjunct). -/
theorem memory_starts_with_iff (m : Memory) (p : List Int) :
    m.memory_starts_with p = true ↔
      p.length ≤ m.mem.length ∧ ∀ i : Nat, i < p.length → m.mem.get? i = p.get? i :=
  startsWithAux_iff p m.mem

/-- C8 witness: the characterization applied at concrete inputs — a genuine
3-cell prefix of `[1,0,0,3,99]` is accepted, and a 6-cell sequence strictly
longer than the memory is rejected. -/
theorem memory_starts_with_iff_witness :
    Memory.memory_starts_with ⟨[1, 0, 0, 3, 99]⟩ [1, 0, 0] = true ∧
      ¬ Memory.memory_starts_with ⟨[1, 0, 0, 3, 99]⟩ [1, 0, 0, 3, 99, 5] = true :=
  ⟨(memory_starts_with_iff ⟨[1, 0, 0, 3, 99]⟩ [1, 0, 0]).mpr ⟨by decide, by decide⟩,
   fun hc => absurd ((memory_starts_with_iff ⟨[1, 0, 0, 3, 99]⟩
      [1, 0, 0, 3, 99, 5]).mp hc).1 (by decide)⟩

/-- C9: the fetch-decode-execute loop always terminates.  Each executed add or
multiply strictly increases the instruction pointer by its width 4 while the
memory length stays fixed (second conjunct), and a halt fetch, an unknown
opcode, a failed cast or an out-of-bounds access ends the loop, so the fuel
`memory length - instruction pointer + 1` is always enough and `run` is
total (first conjunct). -/
theorem run_terminates :
    ∀ vm : IntcodeVM,
      (vm.run).isSome ∧
      ∀ t : IntcodeVM, vm.step = .inr t →
        t.instruction_ptr = vm.instruction_ptr + 4 := by
  intro vm
  refine ⟨runFuel_isSome_of_lt _ vm (by omega), ?_⟩
  intro t ht
  exact (step_inr ht).2.1

/-- C9 witness: termination and the width-4 advance at the concrete program
`[1,0,0,0,99]`, whose first step rewrites cell 0 and moves the instruction
pointer from 0 to 4. -/
theorem run_terminates_witness :
    (IntcodeVM.run ⟨⟨[1, 0, 0, 0, 99]⟩, 0⟩).isSome ∧
      IntcodeVM.step ⟨⟨[1, 0, 0, 0, 99]⟩, 0⟩ = .inr ⟨⟨[2, 0, 0, 0, 99]⟩, 4⟩ ∧
      (⟨⟨[2, 0, 0, 0, 99]⟩, 4⟩ : IntcodeVM).instruction_ptr = 0 + 4 :=
  ⟨(run_terminates ⟨⟨[1, 0, 0, 0, 99]⟩, 0⟩).1, by decide,
   (run_terminates ⟨⟨[1, 0, 0, 0, 99]⟩, 0⟩).2 ⟨⟨[2, 0, 0, 0, 99]⟩, 4⟩ (by decide)⟩

/-- C10: every `run` invocation — whether it ends in a clean halt, a `VMError`
or a panic — leaves the memory length exactly what it was before the call:
`Memory::set` only replaces existing cells in place, so the backing store
never grows or shrinks. -/
theorem run_preserves_memory_length (vm : IntcodeVM) (r : RunResult)
    (t : IntcodeVM) (h : vm.run = some (r, t)) :
    t.memory.mem.length = vm.memory.mem.length :=
  runFuel_preserves_length _ vm r t h

/-- C10 witness: the length-preservation theorem applied to the concrete run
of `[1,0,0,0,99]`, which executes an add and halts with a 5-cell memory. -/
theorem run_preserves_memory_length_witness :
    IntcodeVM.run ⟨⟨[1, 0, 0, 0, 99]⟩, 0⟩
        = some (.halted, ⟨⟨[2, 0, 0, 0, 99]⟩, 4⟩) ∧
      (⟨⟨[2, 0, 0, 0, 99]⟩, 4⟩ : IntcodeVM).memory.mem.length
        = (⟨⟨[1, 0, 0, 0, 99]⟩, 0⟩ : IntcodeVM).memory.mem.length :=
  ⟨by decide,
   run_preserves_memory_length ⟨⟨[1, 0, 0, 0, 99]⟩, 0⟩ .halted
     ⟨⟨[2, 0, 0, 0, 99]⟩, 4⟩ (by decide)⟩
